import Mathlib

/-!
Shallow embedding of the cortex-browser backend planning and task-sequencing
core (src/backend/main.go and src/backend/llm/parser.go).

Strings are modelled as Lean `String` (a list of characters).  The Go code
operates on UTF-8 bytes; all keyword tables, selectors and goal inputs in the
claims are ASCII, where byte positions and character positions coincide, so
the character-level model is faithful on the relevant inputs.

The Go `strings`/`regexp` primitives used by the source are reimplemented
here with the same semantics:
  - `strings.Contains`, `strings.HasPrefix`, `strings.Index`,
    `strings.TrimSpace`, `strings.ToLower`, `strings.Fields`;
  - the URL regular expression of `extractURLFromGoal` and the conjunction
    splitter of `parseMultiStepGoal`, hand-compiled to backtracking matchers
    with Go's leftmost-first, greedy alternation semantics.
-/

/-- Whitespace class of Go's regexp `\s`: `[\t\n\f\r ]`. -/
def isRegexSpace (c : Char) : Bool :=
  c == ' ' || c == '\t' || c == '\n' || c == '\x0c' || c == '\r'

/-- Whitespace recognised by Go's `strings.TrimSpace`/`strings.Fields`
(ASCII part of `unicode.IsSpace`). -/
def isGoSpace (c : Char) : Bool :=
  c == ' ' || c == '\t' || c == '\n' || c == '\x0b' || c == '\x0c' || c == '\r'

/-- ASCII lower-casing, as Go's `strings.ToLower` acts on ASCII letters
(identical to Lean's `Char.toLower`). -/
def lowerChar (c : Char) : Char :=
  if 'A' ≤ c ∧ c ≤ 'Z' then Char.ofNat (c.toNat + 32) else c

/-- Model of `strings.ToLower`. -/
def goToLower (s : String) : String :=
  ⟨s.data.map lowerChar⟩

/-- Trim a character list on both ends, dropping characters satisfying `p`. -/
def trimList (l : List Char) : List Char :=
  ((l.dropWhile isGoSpace).reverse.dropWhile isGoSpace).reverse

/-- Model of `strings.TrimSpace`. -/
def goTrim (s : String) : String :=
  ⟨trimList s.data⟩

/-- Does `l` start with `k`?  (`strings.HasPrefix` on character lists.) -/
def listHasPref : List Char → List Char → Bool
  | _, [] => true
  | [], _ :: _ => false
  | h :: t, p :: q => h == p && listHasPref t q

/-- Does `l` contain `k` as a contiguous run?  (`strings.Contains`.) -/
def hasSub : List Char → List Char → Bool
  | [], k => k.isEmpty
  | h :: t, k => listHasPref (h :: t) k || hasSub t k

/-- Model of `strings.Contains`. -/
def strContains (s sub : String) : Bool :=
  hasSub s.data sub.data

/-- Model of `strings.HasPrefix`. -/
def strHasPref (s pre : String) : Bool :=
  listHasPref s.data pre.data

/-- Model of `strings.Index` (first occurrence, character position). -/
def subIdx : List Char → List Char → Option Nat
  | [], k => if k.isEmpty then some 0 else none
  | h :: t, k =>
    if listHasPref (h :: t) k then some 0
    else (subIdx t k).map (· + 1)

/-- Accumulator-based splitter behind `goFields`. -/
def fieldsAux : List Char → List Char → List (List Char)
  | [], acc => if acc.isEmpty then [] else [acc.reverse]
  | c :: t, acc =>
    if isGoSpace c then
      if acc.isEmpty then fieldsAux t [] else acc.reverse :: fieldsAux t []
    else fieldsAux t (c :: acc)

/-- Model of `strings.Fields`: maximal runs of non-whitespace characters. -/
def goFields (l : List Char) : List (List Char) :=
  fieldsAux l []

/-- Case-insensitive literal prefix test (`(?i)` literals of the URL regex);
the pattern is given in lower case. -/
def ciHasPref : List Char → List Char → Bool
  | _, [] => true
  | [], _ :: _ => false
  | h :: t, p :: q => lowerChar h == p && ciHasPref t q

/-- Character class `[a-zA-Z0-9-]` of the URL regex. -/
def labelChar (c : Char) : Bool :=
  c.isAlpha || c.isDigit || c == '-'

/-- The fixed top-level-domain alternation `(?:com|org|net|edu|gov|io|co)`,
in the source's order (leftmost-first preference). -/
def tldAlts : List (List Char) :=
  ["com".data, "org".data, "net".data, "edu".data, "gov".data, "io".data, "co".data]

/-- Match one of the top-level domains at the head of `cs`, returning the
consumed length; alternatives are tried in order. -/
def matchTld (cs : List Char) : Option Nat :=
  tldAlts.findSome? fun t => if ciHasPref cs t then some t.length else none

/-- Greedy match of the optional path suffix `(?:/[^\s]*)?`. -/
def pathLen : List Char → Nat
  | '/' :: rest => 1 + (rest.takeWhile (fun c => !(isRegexSpace c))).length
  | _ => 0

/-- Match `\.(?:com|org|net|edu|gov|io|co)(?:/[^\s]*)?` at the head of `cs`. -/
def afterLabel : List Char → Option Nat
  | '.' :: rest => (matchTld rest).map (fun t => 1 + t + pathLen (rest.drop t))
  | _ => none

/-- Backtracking over the greedy label `[a-zA-Z0-9-]+`: try the longest label
first, then shorter ones, each followed by `afterLabel`. -/
def tryLabelLens : Nat → List Char → Option Nat
  | 0, _ => none
  | j + 1, cs =>
    match afterLabel (cs.drop (j + 1)) with
    | some m => some (j + 1 + m)
    | none => tryLabelLens j cs

/-- Match `[a-zA-Z0-9-]+\.(?:com|…)(?:/[^\s]*)?` at the head of `cs`. -/
def tryLabelFrom (cs : List Char) : Option Nat :=
  tryLabelLens (cs.takeWhile labelChar).length cs

/-- Match `(?:www\.)?[a-zA-Z0-9-]+\.(?:com|…)(?:/[^\s]*)?` at the head of
`cs`; the present-branch of the optional `www.` is preferred. -/
def matchCore (cs : List Char) : Option Nat :=
  match (if ciHasPref cs ("www.".data) then (tryLabelFrom (cs.drop 4)).map (· + 4) else none) with
  | some n => some n
  | none => tryLabelFrom cs

/-- Match the whole URL regex
`(?i)(?:https?://)?(?:www\.)?([a-zA-Z0-9-]+\.(?:com|org|net|edu|gov|io|co))(?:/[^\s]*)?`
at the head of `cs`, returning the match length. -/
def matchUrlAt (cs : List Char) : Option Nat :=
  match (if ciHasPref cs ("https://".data) then (matchCore (cs.drop 8)).map (· + 8) else none) with
  | some n => some n
  | none =>
    match (if ciHasPref cs ("http://".data) then (matchCore (cs.drop 7)).map (· + 7) else none) with
    | some n => some n
    | none => matchCore cs

/-- Model of `urlRegex.FindString`: leftmost match of the URL regex. -/
def findUrl : List Char → Option (List Char)
  | [] => none
  | c :: rest =>
    match matchUrlAt (c :: rest) with
    | some n => some ((c :: rest).take n)
    | none => findUrl rest

/-- Keyword-category membership: does `goal` contain any keyword as a
substring?  (The source's `containsXKeywords` helpers all have this shape.) -/
def containsAnyOf (goal : String) (keys : List String) : Bool :=
  keys.any fun k => strContains goal k

/-- Model of `containsNavigationKeywords` (main.go). -/
def containsNavigationKeywords (goal : String) : Bool :=
  containsAnyOf goal ["navigate", "go to", "visit", "open", "browse to"]

/-- Model of `containsContentKeywords` (main.go). -/
def containsContentKeywords (goal : String) : Bool :=
  containsAnyOf goal ["get content", "page content", "read page", "extract content", "analyze page"]

/-- Model of `containsSearchKeywords` (main.go). -/
def containsSearchKeywords (goal : String) : Bool :=
  containsAnyOf goal ["search", "find", "look for", "type"]

/-- Model of `containsClickKeywords` (main.go). -/
def containsClickKeywords (goal : String) : Bool :=
  containsAnyOf goal ["click", "press", "tap", "select"]

/-- Model of `containsURL` (main.go): known URL-marker substrings. -/
def containsURL (goal : String) : Bool :=
  containsAnyOf goal [".com", ".org", ".net", ".edu", ".gov", "http", "www."]

/-- The source's `siteMap` table.  In Go this is a map iterated in
unspecified order; the model fixes the order of the source listing (the
claims only exercise goals matching at most one site name). -/
def siteMap : List (String × String) :=
  [("google", "https://google.com"), ("github", "https://github.com"),
   ("youtube", "https://youtube.com"), ("facebook", "https://facebook.com"),
   ("twitter", "https://twitter.com"), ("linkedin", "https://linkedin.com")]

/-- Model of `extractURLFromGoal` (main.go): regex scan, then a word scan
for URL markers, then the site table, then the hardcoded fallback. -/
def extractURLFromGoal (goal : String) : String :=
  match findUrl goal.data with
  | some m =>
    let ms : String := ⟨m⟩
    if strHasPref ms "http" then ms else "https://" ++ ms
  | none =>
    match (goFields goal.data).find? (fun w => containsURL ⟨w⟩) with
    | some w =>
      let ws : String := ⟨w⟩
      if strHasPref ws "http" then ws else "https://" ++ ws
    | none =>
      match siteMap.find? (fun p => strContains goal p.1) with
      | some p => p.2
      | none => "https://google.com"

/-- Model of `extractSelectorFromGoal` (main.go). -/
def extractSelectorFromGoal (goal : String) : String :=
  if strContains goal "button" then "button"
  else if strContains goal "link" then "a"
  else "*"

/-- The ordered phrase-introducer list of `extractSearchTermFromGoal`. -/
def searchIntro : List String :=
  ["search for ", "search ", "find ", "look for "]

/-- Model of `extractSearchTermFromGoal` (main.go): the trimmed remainder of
the goal after the first phrase-introducer that occurs, else the whole
trimmed goal. -/
def extractSearchTermFromGoal (goal0 : String) : String :=
  let goal := goToLower goal0
  match searchIntro.findSome? (fun p =>
      (subIdx goal.data p.data).map (fun i => goTrim ⟨goal.data.drop (i + p.data.length)⟩)) with
  | some t => t
  | none => goTrim goal

/-- A single browser command (`CommandPayload` in main.go); absent optional
fields are the empty string, as for Go's zero values. -/
structure CommandPayload where
  action : String
  url : String
  selector : String
  text : String
deriving DecidableEq, Repr

/-- The search-box selector issued for search/input commands (main.go). -/
def searchBoxSelector : String :=
  "input[name=\u0027q\u0027], textarea[name=\u0027q\u0027], input[type=\u0027search\u0027], input[type=\u0027text\u0027][name=\u0027q\u0027], #search, [role=\u0027searchbox\u0027]"

/-- The synthetic submit-button selector injected by `parseMultiStepGoal`. -/
def submitSelector : String :=
  "input[type=\u0027submit\u0027], button[type=\u0027submit\u0027], button[name=\u0027btnK\u0027], button[name=\u0027btnG\u0027], [aria-label*=\u0027Search\u0027 i], [value*=\u0027Search\u0027 i]"

/-- Model of `parseSingleCommand` (main.go): category tests in the source's
priority order. -/
def parseSingleCommand (goal0 : String) : Option CommandPayload :=
  let goal := goToLower (goTrim goal0)
  if containsNavigationKeywords goal then
    some ⟨"navigate", extractURLFromGoal goal, "", ""⟩
  else if containsContentKeywords goal then
    some ⟨"get_content", "", "", ""⟩
  else if containsSearchKeywords goal then
    some ⟨"input", "", searchBoxSelector, extractSearchTermFromGoal goal⟩
  else if containsClickKeywords goal then
    some ⟨"click", "", extractSelectorFromGoal goal, ""⟩
  else if containsNavigationKeywords goal && containsSearchKeywords goal then
    some ⟨"navigate", extractURLFromGoal goal, "", ""⟩
  else if containsURL goal then
    some ⟨"navigate", extractURLFromGoal goal, "", ""⟩
  else
    none

/-- The conjunction alternation `(and|then|, then|, and)` of the splitter
regex, in source order (leftmost-first preference). -/
def sepAlts : List String :=
  ["and", "then", ", then", ", and"]

/-- Match the `(and|then|, then|, and)\s+` tail of the splitter regex at the
head of `cs`, returning the consumed length. -/
def sepAfterSpaces (cs : List Char) : Option Nat :=
  sepAlts.findSome? fun a =>
    if listHasPref cs a.data then
      let w := (cs.drop a.data.length).takeWhile isRegexSpace
      if 0 < w.length then some (a.data.length + w.length) else none
    else none

/-- Backtracking over the leading greedy `\s+` of the splitter regex. -/
def trySepLens : Nat → List Char → Option Nat
  | 0, _ => none
  | j + 1, cs =>
    match sepAfterSpaces (cs.drop (j + 1)) with
    | some m => some (j + 1 + m)
    | none => trySepLens j cs

/-- Match the splitter regex `\s+(and|then|, then|, and)\s+` at the head of
`cs` (the leading run must have at least one whitespace character). -/
def matchSep (cs : List Char) : Option Nat :=
  trySepLens (cs.takeWhile isRegexSpace).length cs

/-- Leftmost occurrence of the splitter regex: start position and length. -/
def findSep : List Char → Option (Nat × Nat)
  | [] => none
  | c :: t =>
    match matchSep (c :: t) with
    | some m => some (0, m)
    | none => (findSep t).map (fun p => (p.1 + 1, p.2))

/-- Fuelled splitting around successive leftmost separator matches
(`regexp.Split(goal, -1)`).  Each separator consumes at least one character,
so fuel `cs.length` never runs out. -/
def splitAllFuel : Nat → List Char → List (List Char)
  | 0, cs => [cs]
  | fuel + 1, cs =>
    match findSep cs with
    | none => [cs]
    | some (s, m) => cs.take s :: splitAllFuel fuel (cs.drop (s + m))

/-- Model of the conjunction split in `parseMultiStepGoal`. -/
def splitConj (cs : List Char) : List (List Char) :=
  splitAllFuel cs.length cs

/-- Loop body of `parseMultiStepGoal` (main.go): trim the fragment, skip it
when empty or unplannable, append its command, and inject a synthetic
submit-click after an input command whose fragment matches the search
category. -/
def multiStep (commands : List CommandPayload) (part0 : List Char) : List CommandPayload :=
  let part := goTrim ⟨part0⟩
  if part == "" then commands
  else
    match parseSingleCommand part with
    | none => commands
    | some command =>
      if command.action == "input" && containsSearchKeywords part then
        commands ++ [command, ⟨"click", "", submitSelector, ""⟩]
      else
        commands ++ [command]

/-- Model of `parseMultiStepGoal` (main.go): split at conjunctions and fold
the fragments through `multiStep`. -/
def parseMultiStepGoal (goal : String) : List CommandPayload :=
  (splitConj goal.data).foldl multiStep []

/-- A command sequence (`CommandSequence` in main.go). -/
structure CommandSequence where
  commands : List CommandPayload
  taskID : String
  total : Nat
  current : Nat
deriving DecidableEq, Repr

/-- Model of `parseGoalToSequence` (main.go) in the rule-based configuration
(`useLLM` is false, so the alternate-planner branch is skipped; claims about
planning target the rule-based path).  Returns `none` where the source
returns a nil sequence. -/
def parseGoalToSequence (goal0 : String) : Option CommandSequence :=
  let goal := goToLower (goTrim goal0)
  let commands :=
    if strContains goal " and " || strContains goal ", then " || strContains goal " then " then
      parseMultiStepGoal goal
    else
      match parseSingleCommand goal with
      | some command => [command]
      | none => []
  if commands.isEmpty then none
  else some ⟨commands, "", commands.length, 0⟩

/-- An executor outcome report (`CommandResult` in main.go).  The step index
is a Go `int` (the executor may echo anything). -/
structure CommandResult where
  step : Int
  action : String
  success : Bool
  details : String
  error : String
  timestamp : String
deriving DecidableEq, Repr

/-- The execution record for one in-flight plan (`TaskState` in main.go).
The status is the literal Go string: "pending", "executing", "completed" or
"failed". -/
structure TaskState where
  taskID : String
  goal : String
  sequence : CommandSequence
  status : String
  currentStep : Nat
  results : List CommandResult
deriving DecidableEq, Repr

/-- Outbound envelopes sent by the handlers (main.go `sendMessage` calls). -/
inductive OutMsg where
  | command (payload : CommandPayload)
  | commandSequence (payload : CommandSequence)
  | commandSequenceUpdate (payload : CommandSequence)
  | taskComplete (message : String)
  | errorMsg (message : String) (code : String)
deriving DecidableEq, Repr

/-- The task registry `activeTasks`.  In Go it is a map keyed by the task
identifier and iterated in unspecified order; the model keeps the tasks in a
list and resolves "first found" deterministically by list order (the claims
do not depend on which active task an iteration visits first). -/
abbrev Registry := List TaskState

/-- Replace the task with the given identifier (in Go the found task is
mutated in place through its pointer, so the registry sees the update). -/
def updateTask (reg : Registry) (id : String) (t : TaskState) : Registry :=
  reg.map fun u => if u.taskID == id then t else u

/-- Delete the task with the given identifier (`delete(activeTasks, id)`). -/
def removeTask (reg : Registry) (id : String) : Registry :=
  reg.filter fun u => !(u.taskID == id)

/-- The task-lookup policy of `handleCommandComplete`: prefer a task whose
status is "executing", else the first task that is "pending" or
"executing". -/
def findTask (reg : Registry) : Option TaskState :=
  match reg.find? (fun t => t.status == "executing") with
  | some t => some t
  | none => reg.find? (fun t => t.status == "pending" || t.status == "executing")

/-- Result of running `handleCommandComplete`: the registry afterwards, the
messages sent in order, and the final state of the matched `TaskState`
object (`none` when no task matched; the object outlives its registry entry
in Go, so its final field values are observable). -/
structure CompleteOut where
  registry : Registry
  msgs : List OutMsg
  matched : Option TaskState
deriving DecidableEq, Repr

/-- Model of `handleCommandComplete` (main.go): match a task, promote a
pending match to "executing", append the outcome and advance the cursor;
then either send the sequence update and the next command, or mark the task
"completed", deregister it and send the task-complete summary. -/
def handleCommandComplete (reg : Registry) (result : CommandResult) : CompleteOut :=
  match findTask reg with
  | none => ⟨reg, [], none⟩
  | some t0 =>
    let t1 := if t0.status == "pending" then { t0 with status := "executing" } else t0
    let t2 := { t1 with currentStep := t1.currentStep + 1, results := t1.results ++ [result] }
    if t2.currentStep < t2.sequence.commands.length then
      let nextCommand := t2.sequence.commands.getD t2.currentStep ⟨"", "", "", ""⟩
      let t3 := { t2 with sequence := { t2.sequence with current := t2.currentStep } }
      ⟨updateTask reg t0.taskID t3,
       [.commandSequenceUpdate t3.sequence, .command nextCommand],
       some t3⟩
    else
      let t3 := { t2 with status := "completed" }
      ⟨removeTask reg t0.taskID,
       [.taskComplete ("Successfully completed multi-step task: " ++ t3.goal)],
       some t3⟩

/-- Model of `handleExecuteTaskWithCompletion` (main.go), after the payload
has been decoded to a goal string; `taskID` stands for the fresh identifier
`generateTaskID` would produce.  Note the Go code stores a value copy of the
sequence in the task (`Sequence: *sequence`) before assigning
`sequence.TaskID`, `sequence.Total` and `sequence.Current` on the standalone
sequence, so the stored copy keeps taskID "" while the announced
COMMAND_SEQUENCE payload carries the fresh identifier. -/
def handleExecuteTaskWithCompletion (reg : Registry) (goal : String) (taskID : String) :
    Registry × List OutMsg :=
  match parseGoalToSequence goal with
  | none => (reg, [.errorMsg "Could not understand the goal" "GOAL_PARSE_ERROR"])
  | some seq =>
    if seq.commands.isEmpty then
      (reg, [.errorMsg "Could not understand the goal" "GOAL_PARSE_ERROR"])
    else
      let task0 : TaskState := ⟨taskID, goal, seq, "pending", 0, []⟩
      if seq.commands.length == 1 then
        let task1 := { task0 with status := "executing" }
        (reg ++ [task1], [.command (seq.commands.headD ⟨"", "", "", ""⟩)])
      else
        let task1 := { task0 with status := "executing" }
        let seqMsg : CommandSequence :=
          { seq with taskID := taskID, current := 0, total := seq.commands.length }
        (reg ++ [task1],
         [.commandSequence seqMsg, .command (seq.commands.headD ⟨"", "", "", ""⟩)])

/-- Keep-predicate of `postProcessCommands` (llm/parser.go), for the command
`cmd` at index `i` of the original list. -/
def postKeepAt (commands : List CommandPayload) (i : Nat) (cmd : CommandPayload) : Bool :=
  !(cmd.action == "navigate" && !(cmd.url == "") &&
      (strContains cmd.url "example.com" || strContains cmd.url "checkout")) &&
  !(cmd.action == "click" && !(cmd.selector == "") && strContains cmd.selector "example") &&
  !(cmd.action == "get_content" && i == 0 && decide (1 < commands.length) &&
      decide (i + 1 < commands.length) &&
      (commands.getD (i + 1) ⟨"", "", "", ""⟩).action == "click")

/-- Model of `postProcessCommands` (llm/parser.go): drop hallucinated
navigations, invalid click selectors and a redundant leading get_content;
if filtering removes every command, revert to the original list. -/
def postProcessCommands (commands : List CommandPayload) : List CommandPayload :=
  let filtered := ((commands.enum).filter fun p => postKeepAt commands p.1 p.2).map Prod.snd
  if filtered.isEmpty then commands else filtered

theorem charToNat_ofNatAux {n : Nat} (h : n.isValidChar) :
    (Char.ofNatAux n h).toNat = n := by
  simp [Char.ofNatAux, Char.toNat, UInt32.toNat]

theorem charToNat_ofNat_valid {n : Nat} (h : n < 55296) :
    (Char.ofNat n).toNat = n := by
  have hv : n.isValidChar := Or.inl h
  simp [Char.ofNat, hv, charToNat_ofNatAux]

theorem le_char_iff_toNat {a c : Char} : a ≤ c ↔ a.toNat ≤ c.toNat := by
  simp [Char.le_def, UInt32.le_def, BitVec.le_def, Char.toNat, UInt32.toNat]

theorem lowerChar_idem (c : Char) : lowerChar (lowerChar c) = lowerChar c := by
  unfold lowerChar
  by_cases h : 'A' ≤ c ∧ c ≤ 'Z'
  · simp only [h, if_pos]
    have h1 : (65 : Nat) ≤ c.toNat := le_char_iff_toNat.mp h.1
    have h2 : c.toNat ≤ 90 := le_char_iff_toNat.mp h.2
    have hlow : (Char.ofNat (c.toNat + 32)).toNat = c.toNat + 32 :=
      charToNat_ofNat_valid (by omega)
    have hnot : ¬ ('A' ≤ Char.ofNat (c.toNat + 32) ∧ Char.ofNat (c.toNat + 32) ≤ 'Z') := by
      intro hc
      have hle := le_char_iff_toNat.mp hc.2
      rw [hlow] at hle
      have hz : ('Z').toNat = 90 := by decide
      omega
    simp [hnot]
  · simp [h]

theorem map_eq_self_of_mem {α : Type} {f : α → α} :
    ∀ {l : List α}, (∀ x ∈ l, f x = x) → l.map f = l
  | [], _ => rfl
  | a :: t, h => by
    simp only [List.map_cons, List.cons.injEq]
    exact ⟨h a (by simp), map_eq_self_of_mem fun x hx => h x (by simp [hx])⟩

theorem goToLower_eq_self {x : String} (h : ∀ c ∈ x.data, lowerChar c = c) :
    goToLower x = x := by
  obtain ⟨l⟩ := x
  unfold goToLower
  exact congrArg String.mk (map_eq_self_of_mem h)

theorem lowerChar_fixed_of_mem_goToLower {y : String} {c : Char}
    (h : c ∈ (goToLower y).data) : lowerChar c = c := by
  unfold goToLower at h
  simp only [List.mem_map] at h
  obtain ⟨d, _, rfl⟩ := h
  exact lowerChar_idem d

theorem hasSub_nil_true : ∀ (l : List Char), hasSub l [] = true
  | [] => rfl
  | _ :: _ => by simp [hasSub, listHasPref]

theorem listHasPref_nil : ∀ (l : List Char), listHasPref l [] = true
  | [] => rfl
  | _ :: _ => rfl

theorem listHasPref_append {k : List Char} :
    ∀ {l : List Char}, listHasPref l k = true → ∀ (b : List Char), listHasPref (l ++ b) k = true := by
  induction k with
  | nil => intro l _ b; exact listHasPref_nil (l ++ b)
  | cons p q ih =>
    intro l h b
    cases l with
    | nil => simp [listHasPref] at h
    | cons x t =>
      simp only [listHasPref, Bool.and_eq_true] at h
      simp only [List.cons_append, listHasPref, Bool.and_eq_true]
      exact ⟨h.1, ih h.2 b⟩

theorem hasSub_of_pref {l k : List Char} (h : listHasPref l k = true) : hasSub l k = true := by
  cases l with
  | nil =>
    cases k with
    | nil => rfl
    | cons p q => simp [listHasPref] at h
  | cons c t => simp [hasSub, h]

theorem hasSub_cons {t k : List Char} (c : Char) (h : hasSub t k = true) :
    hasSub (c :: t) k = true := by
  simp [hasSub, h]

theorem hasSub_append_left {x k : List Char} (h : hasSub x k = true) :
    ∀ (a : List Char), hasSub (a ++ x) k = true := by
  intro a
  induction a with
  | nil => exact h
  | cons c t ih => exact hasSub_cons c ih

theorem hasSub_append_right {k : List Char} :
    ∀ {x : List Char}, hasSub x k = true → ∀ (b : List Char), hasSub (x ++ b) k = true := by
  intro x
  induction x with
  | nil =>
    intro h b
    simp only [hasSub, List.isEmpty_iff] at h
    subst h
    simpa using hasSub_nil_true b
  | cons c t ih =>
    intro h b
    simp only [hasSub, Bool.or_eq_true] at h
    rcases h with h | h
    · exact hasSub_of_pref (listHasPref_append h b)
    · exact hasSub_cons c (ih h b)

theorem hasSub_of_within {x k a b g : List Char} (hg : g = a ++ x ++ b)
    (h : hasSub x k = true) : hasSub g k = true := by
  subst hg
  rw [List.append_assoc]
  exact hasSub_append_left (hasSub_append_right h b) a

theorem hasSub_false_of_within {x k a b g : List Char} (hg : g = a ++ x ++ b)
    (h : hasSub g k = false) : hasSub x k = false := by
  cases hx : hasSub x k with
  | false => rfl
  | true => rw [hasSub_of_within hg hx] at h; cases h

theorem trimList_within (l : List Char) : ∃ a b, l = a ++ trimList l ++ b := by
  refine ⟨l.takeWhile isGoSpace,
    ((l.dropWhile isGoSpace).reverse.takeWhile isGoSpace).reverse, ?_⟩
  unfold trimList
  conv_lhs => rw [← List.takeWhile_append_dropWhile (p := isGoSpace) (l := l)]
  rw [List.append_assoc]
  congr 1
  conv_lhs => rw [← List.reverse_reverse (l.dropWhile isGoSpace)]
  conv_lhs =>
    rw [← List.takeWhile_append_dropWhile (p := isGoSpace)
      (l := (l.dropWhile isGoSpace).reverse)]
  rw [List.reverse_append]

theorem goTrim_within (x : String) : ∃ a b, x.data = a ++ (goTrim x).data ++ b := by
  unfold goTrim
  exact trimList_within x.data

theorem splitAllFuel_within :
    ∀ (fuel : Nat) (cs part : List Char), part ∈ splitAllFuel fuel cs →
      ∃ a b, cs = a ++ part ++ b := by
  intro fuel
  induction fuel with
  | zero =>
    intro cs part h
    simp only [splitAllFuel, List.mem_singleton] at h
    exact ⟨[], [], by simp [h]⟩
  | succ n ih =>
    intro cs part h
    simp only [splitAllFuel] at h
    cases hf : findSep cs with
    | none =>
      rw [hf] at h
      simp only [List.mem_singleton] at h
      exact ⟨[], [], by simp [h]⟩
    | some p =>
      rw [hf] at h
      obtain ⟨s, m⟩ := p
      simp only [List.mem_cons] at h
      rcases h with h | h
      · exact ⟨[], cs.drop s, by simp [h, List.take_append_drop]⟩
      · obtain ⟨a, b, hab⟩ := ih (cs.drop (s + m)) part h
        refine ⟨cs.take (s + m) ++ a, b, ?_⟩
        conv_lhs => rw [← List.take_append_drop (s + m) cs]
        rw [hab]
        simp [List.append_assoc]

theorem splitConj_within {cs part : List Char} (h : part ∈ splitConj cs) :
    ∃ a b, cs = a ++ part ++ b := by
  exact splitAllFuel_within cs.length cs part h

/-- A goal fragment is keyword-free when it matches none of the four keyword
categories and contains no URL-marker substring (so the Single-Step Planner
has nothing to latch on to). -/
def kwFree (g : String) : Prop :=
  containsNavigationKeywords g = false ∧ containsContentKeywords g = false ∧
  containsSearchKeywords g = false ∧ containsClickKeywords g = false ∧
  containsURL g = false

instance (g : String) : Decidable (kwFree g) := by
  unfold kwFree
  infer_instance

theorem containsAnyOf_false_of_within {g x : String} {keys : List String}
    (h : containsAnyOf g keys = false) (hinf : ∃ a b, g.data = a ++ x.data ++ b) :
    containsAnyOf x keys = false := by
  obtain ⟨a, b, hab⟩ := hinf
  unfold containsAnyOf at h ⊢
  simp only [List.any_eq_false, Bool.not_eq_true] at h ⊢
  intro k hk
  exact hasSub_false_of_within hab (h k hk)

theorem kwFree_of_within {g x : String} (h : kwFree g)
    (hinf : ∃ a b, g.data = a ++ x.data ++ b) : kwFree x := by
  obtain ⟨h1, h2, h3, h4, h5⟩ := h
  exact ⟨containsAnyOf_false_of_within h1 hinf, containsAnyOf_false_of_within h2 hinf,
    containsAnyOf_false_of_within h3 hinf, containsAnyOf_false_of_within h4 hinf,
    containsAnyOf_false_of_within h5 hinf⟩

theorem goToLower_eq_self_of_within {y x : String}
    (hinf : ∃ a b, (goToLower y).data = a ++ x.data ++ b) : goToLower x = x := by
  obtain ⟨a, b, hab⟩ := hinf
  refine goToLower_eq_self fun c hc => ?_
  refine lowerChar_fixed_of_mem_goToLower (y := y) ?_
  rw [hab]
  simp [hc]

theorem within_trans {g x t : List Char} (h1 : ∃ a b, g = a ++ x ++ b)
    (h2 : ∃ a b, x = a ++ t ++ b) : ∃ a b, g = a ++ t ++ b := by
  obtain ⟨a, b, hab⟩ := h1
  obtain ⟨c, d, hcd⟩ := h2
  exact ⟨a ++ c, d ++ b, by simp [hab, hcd, List.append_assoc]⟩

theorem kwFree_norm_of_within {y x : String} (hk : kwFree (goToLower y))
    (hinf : ∃ a b, (goToLower y).data = a ++ x.data ++ b) :
    kwFree (goToLower (goTrim x)) := by
  have htrim : ∃ a b, x.data = a ++ (goTrim x).data ++ b := goTrim_within x
  have hinf2 : ∃ a b, (goToLower y).data = a ++ (goTrim x).data ++ b :=
    within_trans hinf htrim
  rw [goToLower_eq_self_of_within (y := y) hinf2]
  exact kwFree_of_within hk hinf2

theorem parseSingleCommand_eq_none {x : String}
    (h : kwFree (goToLower (goTrim x))) : parseSingleCommand x = none := by
  obtain ⟨h1, h2, h3, h4, h5⟩ := h
  unfold parseSingleCommand
  simp [h1, h2, h3, h4, h5]

theorem multiStep_id {part : List Char}
    (h : parseSingleCommand (goTrim ⟨part⟩) = none) (acc : List CommandPayload) :
    multiStep acc part = acc := by
  simp only [multiStep]
  split
  · rfl
  · rw [h]

theorem foldl_multiStep_id :
    ∀ (parts : List (List Char)),
      (∀ part ∈ parts, parseSingleCommand (goTrim ⟨part⟩) = none) →
      ∀ acc, parts.foldl multiStep acc = acc := by
  intro parts
  induction parts with
  | nil => intro _ acc; rfl
  | cons p t ih =>
    intro h acc
    simp only [List.foldl_cons]
    rw [multiStep_id (h p (by simp))]
    exact ih (fun part hp => h part (by simp [hp])) acc

theorem parseGoalToSequence_eq_none {goal : String}
    (hk : kwFree (goToLower (goTrim goal))) : parseGoalToSequence goal = none := by
  have hsingle : parseSingleCommand (goToLower (goTrim goal)) = none :=
    parseSingleCommand_eq_none
      (kwFree_norm_of_within hk ⟨[], [], by simp⟩)
  have hmulti : parseMultiStepGoal (goToLower (goTrim goal)) = [] := by
    unfold parseMultiStepGoal
    refine foldl_multiStep_id _ ?_ []
    intro part hp
    exact parseSingleCommand_eq_none
      (kwFree_norm_of_within hk (within_trans (splitConj_within hp) (goTrim_within ⟨part⟩)))
  simp [parseGoalToSequence, hsingle, hmulti]

theorem string_mk_ne_empty {m : List Char} (h : m ≠ []) : (⟨m⟩ : String) ≠ "" := by
  intro he
  apply h
  have hd : (⟨m⟩ : String).data = ("" : String).data := by rw [he]
  simpa using hd

theorem append_https_ne_empty (s : String) : ("https://" ++ s) ≠ "" := by
  intro he
  have hd : ("https://" ++ s).data = [] := by rw [he]
  rw [String.data_append] at hd
  have h1 := (List.append_eq_nil.mp hd).1
  exact absurd h1 (by decide)

/-- C4: a goal whose lower-cased, trimmed text matches no navigation,
content-read, search or click keyword and contains no URL-marker substring
makes the Single-Step Planner return no command, and Submit answers with a
GOAL_PARSE_ERROR message while creating no task. -/
theorem c4_goal_parse_error_of_kwFree (goal : String)
    (h : kwFree (goToLower (goTrim goal))) :
    parseSingleCommand goal = none ∧
    ∀ (reg : Registry) (tid : String),
      handleExecuteTaskWithCompletion reg goal tid =
        (reg, [OutMsg.errorMsg "Could not understand the goal" "GOAL_PARSE_ERROR"]) := by
  refine ⟨parseSingleCommand_eq_none h, ?_⟩
  intro reg tid
  simp [handleExecuteTaskWithCompletion, parseGoalToSequence_eq_none h]

/-- Witness for C4 at the concrete keyword-free goal "bread and butter". -/
theorem c4_goal_parse_error_witness :
    parseSingleCommand "bread and butter" = none ∧
    handleExecuteTaskWithCompletion [] "bread and butter" "task_1" =
      ([], [OutMsg.errorMsg "Could not understand the goal" "GOAL_PARSE_ERROR"]) := by
  have h := c4_goal_parse_error_of_kwFree "bread and butter" (by decide)
  exact ⟨h.1, h.2 [] "task_1"⟩

/-- C9: `extractURLFromGoal` is total and never returns the empty string;
on "go to github.com" it returns "https://github.com" and on
"go to my favorite site" it falls back to "https://google.com". -/
theorem c9_extractURL_total_nonempty :
    (∀ goal, extractURLFromGoal goal ≠ "") ∧
    extractURLFromGoal "go to github.com" = "https://github.com" ∧
    extractURLFromGoal "go to my favorite site" = "https://google.com" := by
  refine ⟨?_, by decide, by decide⟩
  intro goal
  unfold extractURLFromGoal
  cases hf : findUrl goal.data with
  | some m =>
    simp only []
    split
    · next hp =>
      refine string_mk_ne_empty fun hm => ?_
      subst hm
      exact absurd hp (by decide)
    · exact append_https_ne_empty _
  | none =>
    cases hw : (goFields goal.data).find? (fun w => containsURL ⟨w⟩) with
    | some w =>
      simp only []
      split
      · next hp =>
        refine string_mk_ne_empty fun hm => ?_
        subst hm
        exact absurd hp (by decide)
      · exact append_https_ne_empty _
    | none =>
      cases hs : siteMap.find? (fun p => strContains goal p.1) with
      | some p =>
        have hmem := List.mem_of_find?_eq_some hs
        fin_cases hmem <;> decide
      | none => decide

/-- The worked goal of the multi-step splitting property. -/
def googleCatsGoal : String := "go to google.com and search for cats"

/-- The navigate command planned for the first fragment of `googleCatsGoal`. -/
def navGoogle : CommandPayload := ⟨"navigate", "https://google.com", "", ""⟩

/-- The input command planned for the second fragment of `googleCatsGoal`. -/
def inputCats : CommandPayload := ⟨"input", "", searchBoxSelector, "cats"⟩

/-- The synthetic submit-click injected after `inputCats`. -/
def clickSubmit : CommandPayload := ⟨"click", "", submitSelector, ""⟩

/-- C3: rule-based planning of "go to google.com and search for cats" yields
exactly the three commands navigate(https://google.com), input("cats" into
the search-box selector) and the injected submit-click, in this order. -/
theorem c3_google_cats_three_commands :
    parseMultiStepGoal (goToLower (goTrim googleCatsGoal)) =
      [navGoogle, inputCats, clickSubmit] ∧
    parseGoalToSequence googleCatsGoal =
      some ⟨[navGoogle, inputCats, clickSubmit], "", 3, 0⟩ := by
  decide

/-- C8: the alternate-planner post-filter drops a navigate whose URL
contains "example.com" (or "checkout") from a longer plan, but a plan that
filtering would empty out is returned unfiltered. -/
theorem c8_postProcess_filtering :
    postProcessCommands
        [⟨"navigate", "https://example.com", "", ""⟩,
         ⟨"input", "", "#q", "cats"⟩,
         ⟨"click", "", "button", ""⟩] =
      [⟨"input", "", "#q", "cats"⟩, ⟨"click", "", "button", ""⟩] ∧
    postProcessCommands [⟨"navigate", "https://example.com", "", ""⟩] =
      [⟨"navigate", "https://example.com", "", ""⟩] ∧
    postProcessCommands
        [⟨"navigate", "https://shop.com/checkout", "", ""⟩,
         ⟨"click", "", "button", ""⟩] =
      [⟨"click", "", "button", ""⟩] := by
  decide

theorem findTask_mem {reg : Registry} {t : TaskState} (h : findTask reg = some t) :
    t ∈ reg := by
  unfold findTask at h
  cases hf : reg.find? (fun u => u.status == "executing") with
  | some u =>
    rw [hf] at h
    cases h
    exact List.mem_of_find?_eq_some hf
  | none =>
    rw [hf] at h
    exact List.mem_of_find?_eq_some h

theorem findTask_status {reg : Registry} {t : TaskState} (h : findTask reg = some t) :
    t.status = "pending" ∨ t.status = "executing" := by
  unfold findTask at h
  cases hf : reg.find? (fun u => u.status == "executing") with
  | some u =>
    rw [hf] at h
    cases h
    right
    simpa using List.find?_some hf
  | none =>
    rw [hf] at h
    simpa using List.find?_some h

/-- Cursor-in-bounds invariant of the registry: every registered task still
has commands left in its plan. -/
def planInv (reg : Registry) : Prop :=
  ∀ t ∈ reg, t.currentStep < t.sequence.commands.length

/-- C1: an outcome report matched to a registered task with commands left
advances its cursor by exactly one and appends exactly one outcome to its
log; the cursor never exceeds the plan length, and on reaching it the task
is marked "completed" and deleted from the registry.  The cursor-in-bounds
invariant is preserved. -/
theorem c1_cursor_advances_by_one (reg : Registry) (r : CommandResult) (t0 : TaskState)
    (hfind : findTask reg = some t0)
    (hlt : t0.currentStep < t0.sequence.commands.length) :
    (∃ t', (handleCommandComplete reg r).matched = some t' ∧
      t'.sequence.commands = t0.sequence.commands ∧
      t'.currentStep = t0.currentStep + 1 ∧
      t'.results = t0.results ++ [r] ∧
      t'.currentStep ≤ t0.sequence.commands.length ∧
      (t'.currentStep = t0.sequence.commands.length →
        t'.status = "completed" ∧
        ∀ u ∈ (handleCommandComplete reg r).registry, u.taskID ≠ t0.taskID) ∧
      (t'.currentStep < t0.sequence.commands.length →
        t' ∈ (handleCommandComplete reg r).registry)) ∧
    (planInv reg → planInv (handleCommandComplete reg r).registry) := by
  cases hstat : (t0.status == "pending") with
  | true =>
    by_cases hc : t0.currentStep + 1 < t0.sequence.commands.length
    · simp only [handleCommandComplete, hfind, hstat, if_true, hc, if_pos]
      constructor
      · refine ⟨_, rfl, rfl, rfl, rfl,
          (by omega : t0.currentStep + 1 ≤ t0.sequence.commands.length), ?_, ?_⟩
        · intro h
          have h2 : t0.currentStep + 1 = t0.sequence.commands.length := h
          exact absurd h2 (by omega)
        · intro _
          simp only [updateTask, List.mem_map]
          exact ⟨t0, findTask_mem hfind, by simp⟩
      · intro hinv u hu
        simp only [updateTask, List.mem_map] at hu
        obtain ⟨v, hv, rfl⟩ := hu
        by_cases hvid : (v.taskID == t0.taskID) = true
        · simpa [hvid] using hc
        · simp only [hvid, if_neg, Bool.false_eq_true, not_false_iff, if_false]
          exact hinv v hv
    · simp only [handleCommandComplete, hfind, hstat, if_true, hc, if_neg, if_false]
      constructor
      · refine ⟨_, rfl, rfl, rfl, rfl,
          (by omega : t0.currentStep + 1 ≤ t0.sequence.commands.length), ?_, ?_⟩
        · intro _
          refine ⟨rfl, ?_⟩
          intro u hu
          simp only [removeTask, List.mem_filter] at hu
          simpa using hu.2
        · intro h
          exact absurd (h : t0.currentStep + 1 < t0.sequence.commands.length) hc
      · intro hinv u hu
        simp only [removeTask, List.mem_filter] at hu
        exact hinv u hu.1
  | false =>
    by_cases hc : t0.currentStep + 1 < t0.sequence.commands.length
    · simp only [handleCommandComplete, hfind, hstat, Bool.false_eq_true, if_false, hc, if_pos]
      constructor
      · refine ⟨_, rfl, rfl, rfl, rfl,
          (by omega : t0.currentStep + 1 ≤ t0.sequence.commands.length), ?_, ?_⟩
        · intro h
          have h2 : t0.currentStep + 1 = t0.sequence.commands.length := h
          exact absurd h2 (by omega)
        · intro _
          simp only [updateTask, List.mem_map]
          exact ⟨t0, findTask_mem hfind, by simp⟩
      · intro hinv u hu
        simp only [updateTask, List.mem_map] at hu
        obtain ⟨v, hv, rfl⟩ := hu
        by_cases hvid : (v.taskID == t0.taskID) = true
        · simpa [hvid] using hc
        · simp only [hvid, Bool.false_eq_true, not_false_iff, if_neg, if_false]
          exact hinv v hv
    · simp only [handleCommandComplete, hfind, hstat, Bool.false_eq_true, if_false, hc, if_neg]
      constructor
      · refine ⟨_, rfl, rfl, rfl, rfl,
          (by omega : t0.currentStep + 1 ≤ t0.sequence.commands.length), ?_, ?_⟩
        · intro _
          refine ⟨rfl, ?_⟩
          intro u hu
          simp only [removeTask, List.mem_filter] at hu
          simpa using hu.2
        · intro h
          exact absurd (h : t0.currentStep + 1 < t0.sequence.commands.length) hc
      · intro hinv u hu
        simp only [removeTask, List.mem_filter] at hu
        exact hinv u hu.1

/-- A demonstration task used to witness the sequencer theorems. -/
def demoTask : TaskState :=
  ⟨"t1", "demo", ⟨[navGoogle, clickSubmit], "", 2, 0⟩, "executing", 0, []⟩

/-- A demonstration outcome report. -/
def demoResult : CommandResult := ⟨0, "navigate", true, "", "", "ts"⟩

/-- Witness for C1: the demonstration task advances from cursor 0 to 1. -/
theorem c1_cursor_advances_by_one_witness :
    ∃ t', (handleCommandComplete [demoTask] demoResult).matched = some t' ∧
      t'.currentStep = 1 := by
  obtain ⟨⟨t', hm, _, hcur, _⟩, _⟩ :=
    c1_cursor_advances_by_one [demoTask] demoResult demoTask (by decide) (by decide)
  exact ⟨t', hm, by rw [hcur]; decide⟩

/-- Forget a task's outcome log (used to state payload independence). -/
def eraseResults (t : TaskState) : TaskState :=
  { t with results := [] }

theorem complete_indep (reg : Registry) (r1 r2 : CommandResult) :
    (handleCommandComplete reg r1).msgs = (handleCommandComplete reg r2).msgs ∧
    (handleCommandComplete reg r1).matched.map eraseResults =
      (handleCommandComplete reg r2).matched.map eraseResults ∧
    (handleCommandComplete reg r1).registry.map eraseResults =
      (handleCommandComplete reg r2).registry.map eraseResults ∧
    (handleCommandComplete reg r1).matched.map (fun t => t.results.dropLast) =
      (handleCommandComplete reg r2).matched.map (fun t => t.results.dropLast) := by
  cases hf : findTask reg with
  | none => simp [handleCommandComplete, hf]
  | some t0 =>
    cases hstat : (t0.status == "pending") with
    | true =>
      by_cases hc : t0.currentStep + 1 < t0.sequence.commands.length
      · simp only [handleCommandComplete, hf, hstat, if_true, hc, if_pos]
        refine ⟨by trivial, by simp [eraseResults], ?_, by simp⟩
        simp only [updateTask, List.map_map]
        refine List.map_congr_left ?_
        intro u _
        by_cases hid : u.taskID = t0.taskID
        · simp [hid, eraseResults]
        · simp [hid]
      · simp only [handleCommandComplete, hf, hstat, if_true, hc, if_neg, if_false]
        exact ⟨by trivial, by simp [eraseResults], by trivial, by simp⟩
    | false =>
      by_cases hc : t0.currentStep + 1 < t0.sequence.commands.length
      · simp only [handleCommandComplete, hf, hstat, Bool.false_eq_true, if_false, hc, if_pos]
        refine ⟨by trivial, by simp [eraseResults], ?_, by simp⟩
        simp only [updateTask, List.map_map]
        refine List.map_congr_left ?_
        intro u _
        by_cases hid : u.taskID = t0.taskID
        · simp [hid, eraseResults]
        · simp [hid]
      · simp only [handleCommandComplete, hf, hstat, Bool.false_eq_true, if_false, hc, if_neg]
        exact ⟨by trivial, by simp [eraseResults], by trivial, by simp⟩

theorem option_proj_of_erase {o1 o2 : Option TaskState}
    (h : o1.map eraseResults = o2.map eraseResults) :
    o1.map (fun t => (t.currentStep, t.status)) =
      o2.map (fun t => (t.currentStep, t.status)) := by
  cases o1 <;> cases o2 <;> simp_all [eraseResults, TaskState.mk.injEq]

/-- C10: a COMMAND_COMPLETE report's effect on cursor, status, registry and
outbound messages is independent of every payload field: two arbitrary
reports yield identical messages, identical matched-task cursor/status,
identical registries up to the outcome logs, and matched logs agreeing on
everything but the appended entry. -/
theorem c10_outcome_payload_independence (reg : Registry) (r1 r2 : CommandResult) :
    (handleCommandComplete reg r1).msgs = (handleCommandComplete reg r2).msgs ∧
    (handleCommandComplete reg r1).matched.map (fun t => (t.currentStep, t.status)) =
      (handleCommandComplete reg r2).matched.map (fun t => (t.currentStep, t.status)) ∧
    (handleCommandComplete reg r1).matched.map eraseResults =
      (handleCommandComplete reg r2).matched.map eraseResults ∧
    (handleCommandComplete reg r1).registry.map eraseResults =
      (handleCommandComplete reg r2).registry.map eraseResults ∧
    (handleCommandComplete reg r1).matched.map (fun t => t.results.dropLast) =
      (handleCommandComplete reg r2).matched.map (fun t => t.results.dropLast) := by
  obtain ⟨h1, h2, h3, h4⟩ := complete_indep reg r1 r2
  exact ⟨h1, option_proj_of_erase h2, h2, h3, h4⟩

theorem complete_no_failed (reg : Registry) (r : CommandResult)
    (hreg : ∀ t ∈ reg, t.status ≠ "failed") :
    (∀ t ∈ (handleCommandComplete reg r).registry, t.status ≠ "failed") ∧
    (∀ t', (handleCommandComplete reg r).matched = some t' → t'.status ≠ "failed") := by
  cases hf : findTask reg with
  | none =>
    simp only [handleCommandComplete, hf]
    exact ⟨hreg, by intro t' h; cases h⟩
  | some t0 =>
    have ht0 := findTask_status hf
    cases hstat : (t0.status == "pending") with
    | true =>
      by_cases hc : t0.currentStep + 1 < t0.sequence.commands.length
      · simp only [handleCommandComplete, hf, hstat, if_true, hc, if_pos]
        constructor
        · intro u hu
          simp only [updateTask, List.mem_map] at hu
          obtain ⟨v, hv, rfl⟩ := hu
          by_cases hid : (v.taskID == t0.taskID) = true
          · rw [if_pos hid]
            exact (by decide : ("executing" : String) ≠ "failed")
          · rw [if_neg hid]; exact hreg v hv
        · intro t' h
          cases h
          exact (by decide : ("executing" : String) ≠ "failed")
      · simp only [handleCommandComplete, hf, hstat, if_true, hc, if_neg, if_false]
        constructor
        · intro u hu
          simp only [removeTask, List.mem_filter] at hu
          exact hreg u hu.1
        · intro t' h
          cases h
          exact (by decide : ("completed" : String) ≠ "failed")
    | false =>
      by_cases hc : t0.currentStep + 1 < t0.sequence.commands.length
      · simp only [handleCommandComplete, hf, hstat, Bool.false_eq_true, if_false, hc, if_pos]
        constructor
        · intro u hu
          simp only [updateTask, List.mem_map] at hu
          obtain ⟨v, hv, rfl⟩ := hu
          by_cases hid : (v.taskID == t0.taskID) = true
          · rw [if_pos hid]; exact hreg t0 (findTask_mem hf)
          · rw [if_neg hid]; exact hreg v hv
        · intro t' h
          cases h
          exact hreg t0 (findTask_mem hf)
      · simp only [handleCommandComplete, hf, hstat, Bool.false_eq_true, if_false, hc, if_neg]
        constructor
        · intro u hu
          simp only [removeTask, List.mem_filter] at hu
          exact hreg u hu.1
        · intro t' h
          cases h
          exact (by decide : ("completed" : String) ≠ "failed")

theorem execute_no_failed (reg : Registry) (goal tid : String)
    (hreg : ∀ t ∈ reg, t.status ≠ "failed") :
    ∀ t ∈ (handleExecuteTaskWithCompletion reg goal tid).1, t.status ≠ "failed" := by
  unfold handleExecuteTaskWithCompletion
  cases hp : parseGoalToSequence goal with
  | none => exact hreg
  | some seq =>
    by_cases he : seq.commands.isEmpty
    · simp only [he, if_pos, if_true]
      exact hreg
    · by_cases h1 : (seq.commands.length == 1) = true
      · simp only [he, Bool.false_eq_true, if_false, h1, if_true]
        intro t ht
        rcases List.mem_append.mp ht with h | h
        · exact hreg t h
        · simp only [List.mem_singleton] at h
          subst h
          simp
      · simp only [he, Bool.false_eq_true, if_false, h1, if_false]
        intro t ht
        rcases List.mem_append.mp ht with h | h
        · exact hreg t h
        · simp only [List.mem_singleton] at h
          subst h
          simp

/-- C2: an outcome report advances the matched task identically whether its
success flag is true or false, and no core operation ever assigns the
status "failed" (only "pending", "executing" and "completed" are ever
written). -/
theorem c2_success_flag_immaterial_no_failed (reg : Registry) (r : CommandResult) :
    ((handleCommandComplete reg { r with success := true }).msgs =
       (handleCommandComplete reg { r with success := false }).msgs ∧
     (handleCommandComplete reg { r with success := true }).matched.map
         (fun t => (t.currentStep, t.status)) =
       (handleCommandComplete reg { r with success := false }).matched.map
         (fun t => (t.currentStep, t.status)) ∧
     (handleCommandComplete reg { r with success := true }).registry.map eraseResults =
       (handleCommandComplete reg { r with success := false }).registry.map eraseResults) ∧
    ((∀ t ∈ reg, t.status ≠ "failed") →
      (∀ t ∈ (handleCommandComplete reg r).registry, t.status ≠ "failed") ∧
      (∀ t', (handleCommandComplete reg r).matched = some t' → t'.status ≠ "failed") ∧
      ∀ goal tid, ∀ t ∈ (handleExecuteTaskWithCompletion reg goal tid).1,
        t.status ≠ "failed") := by
  constructor
  · obtain ⟨h1, h2, h3, _⟩ :=
      complete_indep reg { r with success := true } { r with success := false }
    exact ⟨h1, option_proj_of_erase h2, h3⟩
  · intro hreg
    obtain ⟨ha, hb⟩ := complete_no_failed reg r hreg
    exact ⟨ha, hb, fun goal tid => execute_no_failed reg goal tid hreg⟩

/-- Witness for C2 at the demonstration registry. -/
theorem c2_success_flag_witness :
    (handleCommandComplete [demoTask] { demoResult with success := true }).msgs =
      (handleCommandComplete [demoTask] { demoResult with success := false }).msgs ∧
    ∀ t ∈ (handleCommandComplete [demoTask] demoResult).registry, t.status ≠ "failed" := by
  obtain ⟨⟨h1, _, _⟩, h2⟩ := c2_success_flag_immaterial_no_failed [demoTask] demoResult
  exact ⟨h1, (h2 (by decide)).1⟩

/-- C7 (amended): a replayed outcome report is a no-op provided no pending
or executing task remains registered (in particular after the only task
completed and was deregistered): nothing is sent, no task is created or
resurrected, and the registry is unchanged. -/
theorem c7_replay_noop_when_no_active (reg : Registry) (r : CommandResult)
    (h : ∀ t ∈ reg, t.status ≠ "pending" ∧ t.status ≠ "executing") :
    handleCommandComplete reg r = ⟨reg, [], none⟩ := by
  have hf : findTask reg = none := by
    unfold findTask
    have h1 : reg.find? (fun u => u.status == "executing") = none := by
      rw [List.find?_eq_none]
      intro t ht
      simp [(h t ht).2]
    have h2 : reg.find? (fun u => u.status == "pending" || u.status == "executing") = none := by
      rw [List.find?_eq_none]
      intro t ht
      simp [(h t ht).1, (h t ht).2]
    rw [h1, h2]
  simp [handleCommandComplete, hf]

/-- Witness for C7 (amended) on the empty registry. -/
theorem c7_replay_noop_witness :
    handleCommandComplete [] demoResult = ⟨[], [], none⟩ :=
  c7_replay_noop_when_no_active [] demoResult
    (fun t ht => absurd ht (List.not_mem_nil t))

/-- C7 counterexample: after the single-command task "t1" completes and is
deregistered, replaying its outcome while fresh task "t2" is registered
matches the stale report to "t2" and completes and deletes it — so a
registered task's cursor and status do change, refuting the unconditional
no-op reading. -/
theorem c7_replay_counterexample :
    (let reg1 := (handleExecuteTaskWithCompletion [] "go to google.com" "t1").1
     let reg2 := (handleCommandComplete reg1 demoResult).registry
     let reg3 := (handleExecuteTaskWithCompletion reg2 "go to github.com" "t2").1
     let out := handleCommandComplete reg3 demoResult
     reg2 = [] ∧
     reg3 = [⟨"t2", "go to github.com",
              ⟨[⟨"navigate", "https://github.com", "", ""⟩], "", 1, 0⟩, "executing", 0, []⟩] ∧
     out.registry = [] ∧
     out.msgs = [OutMsg.taskComplete "Successfully completed multi-step task: go to github.com"]) := by
  decide

theorem execute_msgs_single {reg : Registry} {goal tid : String} {seq : CommandSequence}
    (hp : parseGoalToSequence goal = some seq) (hlen : seq.commands.length = 1) :
    (handleExecuteTaskWithCompletion reg goal tid).2 =
      [OutMsg.command (seq.commands.headD ⟨"", "", "", ""⟩)] := by
  unfold handleExecuteTaskWithCompletion
  rw [hp]
  have hne : seq.commands.isEmpty = false := by
    cases hcs : seq.commands
    · rw [hcs] at hlen; cases hlen
    · rfl
  have h1 : (seq.commands.length == 1) = true := by simp [hlen]
  simp [hne, h1]

theorem execute_msgs_multi {reg : Registry} {goal tid : String} {seq : CommandSequence}
    (hp : parseGoalToSequence goal = some seq) (hlen : 2 ≤ seq.commands.length) :
    (handleExecuteTaskWithCompletion reg goal tid).2 =
      [OutMsg.commandSequence
          { seq with taskID := tid, current := 0, total := seq.commands.length },
       OutMsg.command (seq.commands.headD ⟨"", "", "", ""⟩)] := by
  unfold handleExecuteTaskWithCompletion
  rw [hp]
  have hne : seq.commands.isEmpty = false := by
    cases hcs : seq.commands
    · rw [hcs] at hlen; cases hlen
    · rfl
  have h1 : (seq.commands.length == 1) = false := by
    rw [beq_eq_false_iff_ne]
    omega
  simp [hne, h1]

theorem parseGoalToSequence_single_of_no_conj {goal : String}
    (h1 : strContains (goToLower (goTrim goal)) " and " = false)
    (h2 : strContains (goToLower (goTrim goal)) ", then " = false)
    (h3 : strContains (goToLower (goTrim goal)) " then " = false) :
    ∀ seq, parseGoalToSequence goal = some seq → seq.commands.length = 1 := by
  intro seq hp
  have hps : parseGoalToSequence goal =
      match parseSingleCommand (goToLower (goTrim goal)) with
      | some c => some ⟨[c], "", 1, 0⟩
      | none => none := by
    unfold parseGoalToSequence
    cases hpc : parseSingleCommand (goToLower (goTrim goal)) with
    | none => simp [h1, h2, h3, hpc]
    | some c => simp [h1, h2, h3, hpc]
  rw [hps] at hp
  cases hc : parseSingleCommand (goToLower (goTrim goal)) with
  | none =>
    rw [hc] at hp
    cases hp
  | some c =>
    rw [hc] at hp
    cases hp
    rfl

/-- C5 (amended): a goal with no conjunction marker never emits a
COMMAND_SEQUENCE; a goal whose parsed plan keeps at least two commands emits
COMMAND_SEQUENCE immediately before the first COMMAND; but a goal whose
plan collapses to exactly one command — as happens for a multi-fragment
goal whose other fragments fail to plan — emits only a direct COMMAND. -/
theorem c5_sequence_announcement (reg : Registry) (goal tid : String) :
    ((strContains (goToLower (goTrim goal)) " and " = false ∧
      strContains (goToLower (goTrim goal)) ", then " = false ∧
      strContains (goToLower (goTrim goal)) " then " = false) →
      ∀ s, OutMsg.commandSequence s ∉ (handleExecuteTaskWithCompletion reg goal tid).2) ∧
    (∀ seq, parseGoalToSequence goal = some seq → seq.commands.length = 1 →
      (handleExecuteTaskWithCompletion reg goal tid).2 =
        [OutMsg.command (seq.commands.headD ⟨"", "", "", ""⟩)]) ∧
    (∀ seq, parseGoalToSequence goal = some seq → 2 ≤ seq.commands.length →
      (handleExecuteTaskWithCompletion reg goal tid).2 =
        [OutMsg.commandSequence
            { seq with taskID := tid, current := 0, total := seq.commands.length },
         OutMsg.command (seq.commands.headD ⟨"", "", "", ""⟩)]) := by
  refine ⟨?_, fun seq hp hlen => execute_msgs_single hp hlen,
    fun seq hp hlen => execute_msgs_multi hp hlen⟩
  rintro ⟨h1, h2, h3⟩ s hs
  cases hp : parseGoalToSequence goal with
  | none =>
    unfold handleExecuteTaskWithCompletion at hs
    rw [hp] at hs
    simp at hs
  | some seq =>
    rw [execute_msgs_single hp
      (parseGoalToSequence_single_of_no_conj h1 h2 h3 seq hp)] at hs
    simp at hs

/-- Witness for C5 (amended) on the worked multi-step goal. -/
theorem c5_sequence_announcement_witness :
    (handleExecuteTaskWithCompletion [] googleCatsGoal "task_1").2 =
      [OutMsg.commandSequence ⟨[navGoogle, inputCats, clickSubmit], "task_1", 3, 0⟩,
       OutMsg.command navGoogle] := by
  have h := (c5_sequence_announcement [] googleCatsGoal "task_1").2.2
    ⟨[navGoogle, inputCats, clickSubmit], "", 3, 0⟩ (by decide) (by decide)
  exact h

/-- C5 counterexample: "go to google.com and dance" is multi-fragment (it
contains the marker " and ") yet its second fragment plans to nothing, the
plan collapses to one command, and submission emits only a direct COMMAND,
never a COMMAND_SEQUENCE. -/
theorem c5_multi_fragment_counterexample :
    strContains (goToLower (goTrim "go to google.com and dance")) " and " = true ∧
    (handleExecuteTaskWithCompletion [] "go to google.com and dance" "task_1").2 =
      [OutMsg.command navGoogle] := by
  decide

/-- C6 (code bug): the COMMAND_SEQUENCE announcement of the worked
multi-step task carries taskId "task_1", but the COMMAND_SEQUENCE_UPDATE
sent after the first outcome carries taskId "" — the source assigns
`sequence.TaskID` only after storing a value copy of the sequence inside
the TaskState, so updates (built from the stored copy) lose the
identifier.  Commands, total and the advanced current field do match. -/
theorem c6_update_drops_taskID :
    (handleExecuteTaskWithCompletion [] googleCatsGoal "task_1").2 =
      [OutMsg.commandSequence ⟨[navGoogle, inputCats, clickSubmit], "task_1", 3, 0⟩,
       OutMsg.command navGoogle] ∧
    (handleCommandComplete
        (handleExecuteTaskWithCompletion [] googleCatsGoal "task_1").1 demoResult).msgs =
      [OutMsg.commandSequenceUpdate ⟨[navGoogle, inputCats, clickSubmit], "", 3, 1⟩,
       OutMsg.command inputCats] ∧
    ("" : String) ≠ "task_1" := by
  decide
